import Mathlib

/-!
Shallow embedding of `src/app.py` (Japanese Minimal Pairs Practice).

Modelling conventions used throughout:
* Timestamps (`datetime` values) are integers counting minutes since an
  arbitrary epoch; `timedelta(days=d)` is `1440 * d` minutes and
  `timedelta(minutes=m)` is `m`.  Comparisons of `datetime` values become
  integer comparisons.
* Each call to `datetime.now()` is a clock reading.  Functions that read the
  clock take the readings as explicit parameters, in program order: a function
  that captures `now` once takes one `now : Int`; a loop that may lazily
  initialize pair `i` (each initialization reads the clock once) takes a
  stream `tInit : Nat -> Int` giving the reading used for pair `i`.  A real
  execution has a non-decreasing clock, so readings taken later in program
  order are ≥ earlier ones.
* Randomness (`random.random`, `random.choice`, `random.shuffle`) is
  parameterized: the coin flip is a `Bool`, `random.choice` takes a natural
  number reduced mod the list length, and `random.shuffle` is the
  Fisher-Yates loop of CPython driven by a stream of draws.
* Python dicts (`st.session_state.progress`, `daily_stats`) are association
  lists in insertion order, matching dict iteration order.
* Python `int(q)` on a rational truncates toward zero.
-/

/-- `int(q)` of Python on a rational value: truncation toward zero. -/
def pyInt (q : ℚ) : ℤ := if 0 ≤ q then ⌊q⌋ else ⌈q⌉

/-- One entry of `st.session_state.progress` (see `init_pair_progress` in
`src/app.py`): SRS scheduling state for one pair. -/
structure ItemProgress where
  correct_streak : ℕ
  ease_factor : ℚ
  interval_days : ℚ
  next_review : ℤ
  ever_correct : Bool
deriving DecidableEq

/-- One entry of `st.session_state.daily_stats` (see `update_daily_stats`).
`started_at` is stored as an ISO timestamp; modelled as the timestamp. -/
structure DailyStat where
  questions_answered : ℕ
  correct_answers : ℕ
  started_at : ℤ
deriving DecidableEq

/-- The mutable session state of the app (the fields of `st.session_state`
that the scheduler and persistence code touch). -/
structure AppState where
  progress : List (ℕ × ItemProgress)
  session_correct : ℕ
  session_total : ℕ
  current_streak : ℕ
  daily_stats : List (String × DailyStat)
  extra_questions_added : ℕ
  last_shown_type : Option String
deriving DecidableEq

/-- `DAILY_TARGET = 20` from `src/app.py`. -/
def DAILY_TARGET : ℕ := 20

/-- Lookup in a Python dict modelled as an association list (first match). -/
def dictGet {κ α : Type} [DecidableEq κ] : List (κ × α) → κ → Option α
  | [], _ => none
  | (k', v) :: rest, k => if k' = k then some v else dictGet rest k

/-- `d[k] = v` on a Python dict: replace the entry if the key is present,
append a new entry otherwise (dicts keep insertion order). -/
def dictSet {κ α : Type} [DecidableEq κ] (m : List (κ × α)) (k : κ) (v : α) :
    List (κ × α) :=
  if (dictGet m k).isSome then
    m.map (fun kv => if kv.1 = k then (k, v) else kv)
  else m ++ [(k, v)]

/-- The fresh progress entry created by `init_pair_progress`:
`correct_streak 0`, `ease_factor 2.5`, `interval_days 0`,
`next_review = datetime.now()` (the reading `t`), `ever_correct False`. -/
def defaultProgress (t : ℤ) : ItemProgress :=
  { correct_streak := 0, ease_factor := 5/2, interval_days := 0,
    next_review := t, ever_correct := false }

/-- `init_pair_progress(pair_id)` from `src/app.py`: insert the default entry
if the pair id is not yet a key; `t` is the `datetime.now()` reading used for
the new entry. -/
def init_pair_progress (m : List (ℕ × ItemProgress)) (pid : ℕ) (t : ℤ) :
    List (ℕ × ItemProgress) :=
  if (dictGet m pid).isSome then m else m ++ [(pid, defaultProgress t)]

/-- The local `interval` computed on the correct-answer path of
`update_progress` (lines 350-354 of `src/app.py`): `1` when the incremented
streak is `1`, otherwise `max(1, int(interval_days * ease_factor))`. -/
def correctInterval (p : ItemProgress) : ℤ :=
  if p.correct_streak + 1 = 1 then 1
  else max 1 (pyInt (p.interval_days * p.ease_factor))

/-- The per-entry effect of `update_progress(pair_id, is_correct)` on the
pair's `ItemProgress` (lines 346-366 of `src/app.py`); `now` is the single
`datetime.now()` reading the call makes when scheduling. -/
def updateEntry (p : ItemProgress) (is_correct : Bool) (now : ℤ) :
    ItemProgress :=
  if is_correct then
    { p with
      correct_streak := p.correct_streak + 1
      ever_correct := true
      interval_days := ((correctInterval p : ℤ) : ℚ)
      next_review :=
        if correctInterval p < 1 then
          now + max 1 (pyInt ((correctInterval p : ℚ) * 1440))
        else now + 1440 * correctInterval p }
  else
    { p with correct_streak := 0, interval_days := 0, next_review := now }

/-- `update_progress(pair_id, is_correct)` from `src/app.py`: lazily
initialize the entry (clock reading `tInit`), then update it.  The trailing
`save_progress()` call only performs file I/O and does not change the
in-memory state modelled here. -/
def update_progress (m : List (ℕ × ItemProgress)) (pid : ℕ) (is_correct : Bool)
    (now tInit : ℤ) : List (ℕ × ItemProgress) :=
  let m' := init_pair_progress m pid tInit
  dictSet m' pid
    (updateEntry ((dictGet m' pid).getD (defaultProgress tInit)) is_correct now)

/-- One element of the `due_pairs` list built by `select_next_pair`:
`(pair_id, next_review, type_name)`. -/
def DueEntry : Type := ℕ × ℤ × String

instance : DecidableEq DueEntry := by unfold DueEntry; infer_instance

/-- `random.choice(l)` on a nonempty list, the random draw `r` reduced mod
the length (on `[]` it returns a dummy, but it is only applied to nonempty
lists, as in the source). -/
def pyChoice (l : List DueEntry) (r : ℕ) : DueEntry :=
  l.getD (r % l.length) (0, 0, "")

/-- The scan loop of `select_next_pair` (lines 376-381 of `src/app.py`):
for `pair_id` in `[i, i+fuel)`, lazily initialize (reading `tInit pair_id`
from the clock) and collect the due `(pair_id, next_review, type)` triples;
`now` is the reading captured before the loop.  Returns the updated progress
dict and the `due_pairs` list. -/
def scanDue (now : ℤ) (tInit : ℕ → ℤ) (types : ℕ → String) (i : ℕ) :
    ℕ → List (ℕ × ItemProgress) → List (ℕ × ItemProgress) × List DueEntry
  | 0, m => (m, [])
  | fuel + 1, m =>
    let m' := init_pair_progress m i (tInit i)
    let p := (dictGet m' i).getD (defaultProgress (tInit i))
    let rest := scanDue now tInit types (i + 1) fuel m'
    if p.next_review ≤ now then (rest.1, (i, p.next_review, types i) :: rest.2)
    else rest

/-- Lines 383-409 of `select_next_pair`: given the `due_pairs` list, either
return `None` (empty) or sort by `next_review`, form the urgent set (due
within 5 minutes of the earliest), prefer a different type from
`last_shown_type` when possible, pick randomly (`rand`), and remember the
chosen type. -/
def afterScan (s : AppState) (m' : List (ℕ × ItemProgress)) (rand : ℕ) :
    List DueEntry → Option ℕ × AppState
  | [] => (none, { s with progress := m' })
  | d :: ds =>
    let sorted := List.insertionSort (fun a b => a.2.1 ≤ b.2.1) (d :: ds)
    let earliest := (sorted.headD d).2.1
    let urgent := sorted.filter (fun p => decide (p.2.1 ≤ earliest + 5))
    let selected :=
      if 1 < urgent.length ∧ s.last_shown_type.isSome then
        let different :=
          urgent.filter (fun p => decide (some p.2.2 ≠ s.last_shown_type))
        if different.isEmpty then pyChoice urgent rand
        else pyChoice different rand
      else if 1 < urgent.length then pyChoice urgent rand
      else urgent.headD d
    (some selected.1,
     { s with progress := m', last_shown_type := some selected.2.2 })

/-- `select_next_pair(df)` from `src/app.py`.  `N = len(df)`, `types i` is
`df.iloc[i]["Type"]`, `now` is the `datetime.now()` reading captured at line
374 (before the scan), `tInit i` the reading used if pair `i` is lazily
initialized during the scan, and `rand` drives `random.choice`. -/
def select_next_pair (N : ℕ) (s : AppState) (now : ℤ) (tInit : ℕ → ℤ)
    (types : ℕ → String) (rand : ℕ) : Option ℕ × AppState :=
  let scan := scanDue now tInit types 0 N s.progress
  afterScan s scan.1 rand scan.2

/-- `daily_target_reached()` from `src/app.py`: today's `questions_answered`
(0 if today has no entry, as in `get_today_stats`) has reached
`DAILY_TARGET + extra_questions_added`. -/
def daily_target_reached (s : AppState) (today : String) : Bool :=
  let qa := match dictGet s.daily_stats today with
    | some d => d.questions_answered
    | none => 0
  decide (DAILY_TARGET + s.extra_questions_added ≤ qa)

/-- The per-pair loop of `session_complete` (lines 419-423 of `src/app.py`):
lazily initialize each pair and return `False` at the first pair that is not
ever-correct or is due (`next_review <= now`). -/
def scLoop (now : ℤ) (tInit : ℕ → ℤ) (i : ℕ) :
    ℕ → List (ℕ × ItemProgress) → Bool × List (ℕ × ItemProgress)
  | 0, m => (true, m)
  | fuel + 1, m =>
    let m' := init_pair_progress m i (tInit i)
    let p := (dictGet m' i).getD (defaultProgress (tInit i))
    if ¬ p.ever_correct ∨ p.next_review ≤ now then (false, m')
    else scLoop now tInit (i + 1) fuel m'

/-- `session_complete(df)` from `src/app.py`: true when the daily target is
reached, otherwise true iff every pair is ever-correct and not due. -/
def session_complete (N : ℕ) (s : AppState) (today : String) (now : ℤ)
    (tInit : ℕ → ℤ) : Bool × AppState :=
  if daily_target_reached s today then (true, s)
  else
    let r := scLoop now tInit 0 N s.progress
    (r.1, { s with progress := r.2 })

/-- A slot label, `'A'` or `'B'` in `src/app.py`. -/
inductive Slot : Type
  | A : Slot
  | B : Slot
deriving DecidableEq

/-- One catalog row (`df.iloc[pair_id]`), with the columns the core reads. -/
structure CatalogRow where
  word1_kana : String
  word1_kanji : String
  word2_kana : String
  word2_kanji : String
  type : String

/-- `extract_first_word(text)` from `src/app.py`: split by comma, newline or
space (in that priority), strip the parts, and return the first non-empty
one; fall back to the stripped text. -/
def extract_first_word (text : String) : String :=
  let attempt := fun (delim : String) =>
    ((text.splitOn delim).map String.trim).filter (fun p => p ≠ "")
  match attempt "," with
  | p :: _ => p
  | [] =>
    match attempt "\n" with
    | p :: _ => p
    | [] =>
      match attempt " " with
      | p :: _ => p
      | [] => text.trim

/-- The Python swap `x[i], x[j] = x[j], x[i]` on a list (identity when an
index is out of range, which never happens in `random.shuffle`). -/
def swapNth {α : Type} (l : List α) (i j : ℕ) : List α :=
  match l.get? i, l.get? j with
  | some a, some b => (l.set i b).set j a
  | _, _ => l

/-- The loop of CPython's `random.shuffle`: for `i` from `len-1` down to `1`,
swap `x[i]` with `x[j]` where `j` is drawn uniformly from `[0, i]`; the draw
for index `i` is modelled as `draws i % (i+1)`. -/
def shuffleGo {α : Type} (draws : ℕ → ℕ) : ℕ → List α → List α
  | 0, l => l
  | i + 1, l => shuffleGo draws i (swapNth l (i + 1) (draws (i + 1) % (i + 2)))

/-- `random.shuffle(l)` from `src/app.py`, driven by the stream `draws`. -/
def pyShuffle {α : Type} (l : List α) (draws : ℕ → ℕ) : List α :=
  shuffleGo draws (l.length - 1) l

/-- A generated odd-one-out question (`create_question`'s return dict). -/
structure Question where
  pair_id : ℕ
  sequence : List Slot
  correct_position : ℕ
  majority : Slot
  odd : Slot
  word1_kana : String
  word1_kanji : String
  word2_kana : String
  word2_kanji : String
  type : String

/-- `create_question(pair_id, df)` from `src/app.py`: flip a coin (`coin` is
`random.random() < 0.5`) for which word is the majority, shuffle
`[majority, majority, majority, odd]` (`draws` drives the shuffle), and set
`correct_position` to the 1-indexed position of the odd slot. -/
def create_question (pair_id : ℕ) (row : CatalogRow) (coin : Bool)
    (draws : ℕ → ℕ) : Question :=
  let majority := if coin then Slot.A else Slot.B
  let odd := if coin then Slot.B else Slot.A
  let sequence := pyShuffle [majority, majority, majority, odd] draws
  let correct_position := sequence.indexOf odd + 1
  { pair_id := pair_id
    sequence := sequence
    correct_position := correct_position
    majority := majority
    odd := odd
    word1_kana := row.word1_kana
    word1_kanji := extract_first_word row.word1_kanji
    word2_kana := row.word2_kana
    word2_kanji := extract_first_word row.word2_kanji
    type := row.type }

/-- The audio store: the artifact (its bytes, abstracted to a number) at the
destination path `audio/{pairId}_{slot}.wav`, keyed by `(pairId, slot)`,
or `none` when the file does not exist. -/
def AudioFS : Type := ℕ × Slot → Option ℕ

/-- One unit of pipeline work (`tasks.append((pair_id, word_type, text,
output_path))` in `generate_all_audio`); the destination path is determined
by `(pair_id, slot)`. -/
structure AssetTask where
  pair_id : ℕ
  slot : Slot
  text : String
deriving DecidableEq

/-- The scan of `generate_all_audio` (lines 269-275 of `src/app.py`): for
`i` in `[start, start+fuel)`, record `(i, A)` then `(i, B)` when the
destination file is absent. -/
def missingAux (fs : AudioFS) (start : ℕ) : ℕ → List (ℕ × Slot)
  | 0 => []
  | fuel + 1 =>
    ((if fs (start, Slot.A) = none then [(start, Slot.A)] else []) ++
     (if fs (start, Slot.B) = none then [(start, Slot.B)] else [])) ++
    missingAux fs (start + 1) fuel

/-- The `missing_files` list computed by `generate_all_audio` over a catalog
of size `N`. -/
def missing_files (N : ℕ) (fs : AudioFS) : List (ℕ × Slot) :=
  missingAux fs 0 N

/-- Build the `AssetTask` for a missing `(pairId, slot)` key (lines 287-297):
the text is the first word of the pair's kanji column for that slot. -/
def mkTask (rows : ℕ → CatalogRow) (key : ℕ × Slot) : AssetTask :=
  { pair_id := key.1
    slot := key.2
    text := extract_first_word
      (match key.2 with
       | Slot.A => (rows key.1).word1_kanji
       | Slot.B => (rows key.1).word2_kanji) }

/-- Execution of the dispatched tasks and collection of their results
(lines 299-315): each task whose synthesis succeeds (`ok`) writes the
synthesized bytes to its own destination; each failing task appends its
`(pair_id, slot)` to `failed`.  The list is processed in completion order,
which is a permutation of dispatch order. -/
def runTasks (ok : ℕ × Slot → Bool) (bytes : ℕ × Slot → ℕ) :
    List AssetTask → AudioFS → AudioFS × List (ℕ × Slot)
  | [], fs => (fs, [])
  | t :: rest, fs =>
    let key := (t.pair_id, t.slot)
    let fs' : AudioFS :=
      if ok key then fun k => if k = key then some (bytes key) else fs k
      else fs
    let r := runTasks ok bytes rest fs'
    (r.1, (if ok key then [] else [key]) ++ r.2)

/-- `generate_all_audio(df)` from `src/app.py`.  `N = len(df)`, `fs` is the
audio directory at scan time, `ok key` tells whether the synthesis call for
`key` succeeds, `bytes key` is the synthesized audio, and `order` is the
completion order of the worker pool (`as_completed` yields results in an
arbitrary permutation of the dispatched tasks).  Returns the overall result
(`True` iff no task failed), the resulting audio store, and the `failed`
list. -/
def generate_all_audio (N : ℕ) (rows : ℕ → CatalogRow) (fs : AudioFS)
    (ok : ℕ × Slot → Bool) (bytes : ℕ × Slot → ℕ) (order : List (ℕ × Slot)) :
    Bool × AudioFS × List (ℕ × Slot) :=
  let missing := missing_files N fs
  if missing.isEmpty then (true, fs, [])
  else
    let tasks := order.map (mkTask rows)
    let r := runTasks ok bytes tasks fs
    (r.2.isEmpty, r.1, r.2)

/-- The decimal digit character for `d < 10`. -/
def digitChar (d : ℕ) : Char := Char.ofNat (48 + d)

/-- Python `str(n)` for a natural number: its decimal rendering. -/
def natToStr (n : ℕ) : String :=
  if n = 0 then "0"
  else String.mk (((Nat.digits 10 n).map digitChar).reverse)

/-- The value of a decimal digit character, `none` for a non-digit. -/
def digitOfChar (c : Char) : Option ℕ :=
  if 48 ≤ c.toNat ∧ c.toNat ≤ 57 then some (c.toNat - 48) else none

/-- Accumulating decimal parse of a character list. -/
def strToNatAux : List Char → ℕ → Option ℕ
  | [], acc => some acc
  | c :: cs, acc =>
    match digitOfChar c with
    | some d => strToNatAux cs (10 * acc + d)
    | none => none

/-- Python `int(s)` for a string of decimal digits (`none` models the
`ValueError` on malformed input; only used on the non-negative dict keys). -/
def strToNat (s : String) : Option ℕ :=
  if s.data.isEmpty then none else strToNatAux s.data 0

/-- The serialized form of a timestamp (`datetime.isoformat()`), modelled as
the decimal rendering of the integer timestamp. -/
def isoFormat (t : ℤ) : String :=
  if t < 0 then "-" ++ natToStr t.natAbs else natToStr t.natAbs

/-- Character-level timestamp parse: an optional leading minus sign then
decimal digits. -/
def isoParseChars : List Char → Option ℤ
  | [] => none
  | c :: cs =>
    if c = '-' then
      if cs.isEmpty then none
      else (strToNatAux cs 0).map (fun n => -(n : ℤ))
    else (strToNatAux (c :: cs) 0).map (fun n => (n : ℤ))

/-- `datetime.fromisoformat(s)`: parse the serialized timestamp back
(`none` models the `ValueError` on malformed input). -/
def isoParse (s : String) : Option ℤ :=
  isoParseChars s.data

/-- One serialized progress entry, as written by `save_progress` (lines
33-39 of `src/app.py`): plain JSON numbers and booleans, with `next_review`
rendered through `isoformat`. -/
structure SavedItem where
  correct_streak : ℕ
  ease_factor : ℚ
  interval_days : ℚ
  next_review : String
  ever_correct : Bool
deriving DecidableEq

/-- The JSON snapshot written to `progress.json` by `save_progress` (lines
41-48): progress keyed by the stringified pair id, the three session
counters, the daily stats, and an informational `last_saved` timestamp.
`extra_questions_added` is not part of the snapshot. -/
structure SaveData where
  progress : List (String × SavedItem)
  session_correct : ℕ
  session_total : ℕ
  current_streak : ℕ
  daily_stats : List (String × DailyStat)
  last_saved : String
deriving DecidableEq

/-- `save_progress()` from `src/app.py`: serialize the in-memory state into
the snapshot; `now` is the `datetime.now()` reading for `last_saved`. -/
def save_progress (s : AppState) (now : ℤ) : SaveData :=
  { progress := s.progress.map (fun kv =>
      (natToStr kv.1,
       { correct_streak := kv.2.correct_streak
         ease_factor := kv.2.ease_factor
         interval_days := kv.2.interval_days
         next_review := isoFormat kv.2.next_review
         ever_correct := kv.2.ever_correct }))
    session_correct := s.session_correct
    session_total := s.session_total
    current_streak := s.current_streak
    daily_stats := s.daily_stats
    last_saved := isoFormat now }

/-- What `load_progress` finds on disk: no file at all, a file whose JSON is
corrupt or structurally broken (any exception inside the `try`), or a
well-formed snapshot. -/
inductive LoadInput : Type
  | missingFile : LoadInput
  | corrupt : LoadInput
  | valid : SaveData → LoadInput

/-- The key/timestamp decoding loop of `load_progress` (lines 68-76):
`int(pair_id)` on each key and `fromisoformat` on each `next_review`;
`none` when any entry raises (which the `except` turns into the corrupt
outcome). -/
def parseProgress : List (String × SavedItem) → Option (List (ℕ × ItemProgress))
  | [] => some []
  | (ks, e) :: rest =>
    match strToNat ks, isoParse e.next_review, parseProgress rest with
    | some k, some tm, some r =>
      some ((k, { correct_streak := e.correct_streak
                  ease_factor := e.ease_factor
                  interval_days := e.interval_days
                  next_review := tm
                  ever_correct := e.ever_correct }) :: r)
    | _, _, _ => none

/-- `load_progress()` from `src/app.py` acting on the running state `s`.
Returns the value returned to the caller, the resulting in-memory state, and
whether `st.error` was displayed.  A missing file returns `False` with no
message (line 61-62); any exception — unreadable JSON or a snapshot whose
entries fail to decode — is caught, shows `st.error`, and returns `False`
(lines 85-87); a decodable snapshot replaces the five loaded fields and
returns `True`.  `extra_questions_added` and `last_shown_type` are never
touched. -/
def load_progress (inp : LoadInput) (s : AppState) : Bool × AppState × Bool :=
  match inp with
  | LoadInput.missingFile => (false, s, false)
  | LoadInput.corrupt => (false, s, true)
  | LoadInput.valid d =>
    match parseProgress d.progress with
    | none => (false, s, true)
    | some lp =>
      (true,
       { s with
         progress := lp
         session_correct := d.session_correct
         session_total := d.session_total
         current_streak := d.current_streak
         daily_stats := d.daily_stats },
       false)


lemma dictGet_cons {κ α : Type} [DecidableEq κ] (k' : κ) (v' : α)
    (rest : List (κ × α)) (k : κ) :
    dictGet ((k', v') :: rest) k =
      if k' = k then some v' else dictGet rest k := rfl

lemma dictGet_append_of_some {κ α : Type} [DecidableEq κ]
    {m : List (κ × α)} {k : κ} {v : α} (l : List (κ × α))
    (h : dictGet m k = some v) : dictGet (m ++ l) k = some v := by
  induction m with
  | nil => simp [dictGet] at h
  | cons kv rest ih =>
    obtain ⟨k', v'⟩ := kv
    rw [dictGet_cons] at h
    rw [List.cons_append, dictGet_cons]
    by_cases hk : k' = k
    · rw [if_pos hk] at h ⊢
      exact h
    · rw [if_neg hk] at h ⊢
      exact ih h

lemma dictGet_append_of_none {κ α : Type} [DecidableEq κ]
    {m : List (κ × α)} {k : κ} (l : List (κ × α))
    (h : dictGet m k = none) : dictGet (m ++ l) k = dictGet l k := by
  induction m with
  | nil => simp
  | cons kv rest ih =>
    obtain ⟨k', v'⟩ := kv
    rw [dictGet_cons] at h
    rw [List.cons_append, dictGet_cons]
    by_cases hk : k' = k
    · rw [if_pos hk] at h
      exact absurd h (by simp)
    · rw [if_neg hk] at h ⊢
      exact ih h

lemma dictGet_replace_of_some {κ α : Type} [DecidableEq κ]
    {m : List (κ × α)} {k : κ} {w : α} (v : α)
    (h : dictGet m k = some w) :
    dictGet (m.map (fun kv => if kv.1 = k then (k, v) else kv)) k = some v := by
  induction m with
  | nil => simp [dictGet] at h
  | cons kv rest ih =>
    obtain ⟨k', v'⟩ := kv
    rw [dictGet_cons] at h
    rw [List.map_cons]
    by_cases hk : k' = k
    · subst hk
      rw [show (if (k', v').1 = k' then (k', v) else (k', v')) = (k', v)
            from if_pos rfl]
      rw [dictGet_cons, if_pos rfl]
    · rw [if_neg hk] at h
      rw [show (if (k', v').1 = k then (k, v) else (k', v')) = (k', v')
            from if_neg hk]
      rw [dictGet_cons, if_neg hk]
      exact ih h

lemma dictGet_replace_ne {κ α : Type} [DecidableEq κ]
    (m : List (κ × α)) {k k' : κ} (v : α) (h : k' ≠ k) :
    dictGet (m.map (fun kv => if kv.1 = k then (k, v) else kv)) k' =
      dictGet m k' := by
  induction m with
  | nil => simp
  | cons kv rest ih =>
    obtain ⟨ka, va⟩ := kv
    rw [List.map_cons]
    by_cases hk : ka = k
    · subst hk
      rw [show (if (ka, va).1 = ka then (ka, v) else (ka, va)) = (ka, v)
            from if_pos rfl]
      rw [dictGet_cons, dictGet_cons, if_neg (Ne.symm h), if_neg (Ne.symm h)]
      exact ih
    · rw [show (if (ka, va).1 = k then (k, v) else (ka, va)) = (ka, va)
            from if_neg hk]
      rw [dictGet_cons, dictGet_cons]
      by_cases hk' : ka = k'
      · rw [if_pos hk', if_pos hk']
      · rw [if_neg hk', if_neg hk']
        exact ih

lemma dictGet_dictSet_self {κ α : Type} [DecidableEq κ]
    (m : List (κ × α)) (k : κ) (v : α) :
    dictGet (dictSet m k v) k = some v := by
  unfold dictSet
  cases h : dictGet m k with
  | none =>
    simp only [h, Option.isSome_none, Bool.false_eq_true, if_false]
    rw [dictGet_append_of_none _ h, dictGet_cons, if_pos rfl]
  | some w =>
    simp only [h, Option.isSome_some, if_true]
    exact dictGet_replace_of_some v h

lemma dictGet_dictSet_ne {κ α : Type} [DecidableEq κ]
    (m : List (κ × α)) {k k' : κ} (v : α) (h : k' ≠ k) :
    dictGet (dictSet m k v) k' = dictGet m k' := by
  unfold dictSet
  split
  · exact dictGet_replace_ne m v h
  · cases h' : dictGet m k' with
    | none =>
      rw [dictGet_append_of_none _ h', dictGet_cons, if_neg (Ne.symm h)]
      rfl
    | some w => exact dictGet_append_of_some _ h'

lemma dictGet_init_self (m : List (ℕ × ItemProgress)) (pid : ℕ) (t : ℤ) :
    dictGet (init_pair_progress m pid t) pid =
      some ((dictGet m pid).getD (defaultProgress t)) := by
  unfold init_pair_progress
  cases h : dictGet m pid with
  | none =>
    simp only [h, Option.isSome_none, Bool.false_eq_true, if_false]
    rw [dictGet_append_of_none _ h, dictGet_cons, if_pos rfl]
    rfl
  | some w => simp [h]

lemma dictGet_init_ne (m : List (ℕ × ItemProgress)) {pid j : ℕ} (t : ℤ)
    (h : j ≠ pid) :
    dictGet (init_pair_progress m pid t) j = dictGet m j := by
  unfold init_pair_progress
  split
  · rfl
  · cases h' : dictGet m j with
    | none =>
      rw [dictGet_append_of_none _ h', dictGet_cons, if_neg (Ne.symm h)]
      rfl
    | some w => exact dictGet_append_of_some _ h'

lemma update_progress_lookup (m : List (ℕ × ItemProgress)) (pid : ℕ)
    (c : Bool) (now tI : ℤ) :
    dictGet (update_progress m pid c now tI) pid =
      some (updateEntry ((dictGet m pid).getD (defaultProgress tI)) c now) := by
  unfold update_progress
  rw [dictGet_dictSet_self, dictGet_init_self]
  rfl

lemma update_progress_lookup_ne (m : List (ℕ × ItemProgress)) {pid k : ℕ}
    (c : Bool) (now tI : ℤ) (h : k ≠ pid) :
    dictGet (update_progress m pid c now tI) k = dictGet m k := by
  unfold update_progress
  rw [dictGet_dictSet_ne _ _ h, dictGet_init_ne _ _ h]

lemma max_one_pyInt (x : ℚ) : max 1 (pyInt x) = max 1 ⌊x⌋ := by
  unfold pyInt
  split
  · rfl
  · rename_i h
    push_neg at h
    have hc : ⌈x⌉ ≤ 0 := by
      calc ⌈x⌉ ≤ ⌈(0 : ℚ)⌉ := Int.ceil_le_ceil h.le
      _ = 0 := by simp
    have hf : ⌊x⌋ ≤ 0 := by
      calc ⌊x⌋ ≤ ⌊(0 : ℚ)⌋ := Int.floor_le_floor h.le
      _ = 0 := by simp
    rw [max_eq_left (by omega), max_eq_left (by omega)]

lemma one_le_correctInterval (p : ItemProgress) : 1 ≤ correctInterval p := by
  unfold correctInterval
  split
  · exact le_refl 1
  · exact le_max_left 1 _

lemma updateEntry_true (p : ItemProgress) (now : ℤ) :
    updateEntry p true now =
      { p with
        correct_streak := p.correct_streak + 1
        ever_correct := true
        interval_days := ((correctInterval p : ℤ) : ℚ)
        next_review := now + 1440 * correctInterval p } := by
  unfold updateEntry
  rw [if_pos rfl, if_neg (by have := one_le_correctInterval p; omega)]

lemma updateEntry_false (p : ItemProgress) (now : ℤ) :
    updateEntry p false now =
      { p with correct_streak := 0, interval_days := 0, next_review := now } :=
  rfl

lemma correctInterval_floor (p : ItemProgress) :
    correctInterval p =
      (if p.correct_streak + 1 = 1 then 1
       else max 1 ⌊p.interval_days * p.ease_factor⌋) := by
  unfold correctInterval
  split
  · rfl
  · exact max_one_pyInt _

/-- C2: for every pair id and prior `ItemProgress` state, a correct answer
increments `correct_streak`, sets `ever_correct`, and sets `interval_days`
to `1` when the new streak is `1` and to `max(1, floor(interval_days *
ease_factor))` otherwise; on a 0→1 streak transition, `interval_days = 1`
and `next_review` is exactly one day (1440 minutes) after the recording
time. -/
theorem c2_correct_answer_schedules (m : List (ℕ × ItemProgress)) (pid : ℕ)
    (p : ItemProgress) (now tI : ℤ) (hp : dictGet m pid = some p) :
    ∃ q, dictGet (update_progress m pid true now tI) pid = some q ∧
      q.correct_streak = p.correct_streak + 1 ∧
      q.ever_correct = true ∧
      q.interval_days =
        ((if p.correct_streak + 1 = 1 then 1
          else max 1 ⌊p.interval_days * p.ease_factor⌋ : ℤ) : ℚ) ∧
      (p.correct_streak = 0 →
        q.interval_days = 1 ∧ q.next_review = now + 1440) := by
  have hq := update_progress_lookup m pid true now tI
  rw [hp, Option.getD_some, updateEntry_true] at hq
  refine ⟨_, hq, rfl, rfl, ?_, ?_⟩
  · show ((correctInterval p : ℤ) : ℚ) = _
    rw [correctInterval_floor]
  · intro h0
    have hci : correctInterval p = 1 := by
      unfold correctInterval
      rw [if_pos (by omega)]
    constructor
    · show ((correctInterval p : ℤ) : ℚ) = 1
      rw [hci]
      norm_num
    · show now + 1440 * correctInterval p = now + 1440
      rw [hci]
      ring

/-- C2 witness: a concrete instance of the correct-answer update, starting
from a fresh entry with streak 0. -/
theorem c2_correct_answer_schedules_witness :
    ∃ q, dictGet
          (update_progress [(0, defaultProgress 0)] 0 true 100 0) 0 = some q ∧
      q.correct_streak = (defaultProgress 0).correct_streak + 1 ∧
      q.ever_correct = true ∧
      q.interval_days =
        ((if (defaultProgress 0).correct_streak + 1 = 1 then 1
          else max 1 ⌊(defaultProgress 0).interval_days *
                      (defaultProgress 0).ease_factor⌋ : ℤ) : ℚ) ∧
      ((defaultProgress 0).correct_streak = 0 →
        q.interval_days = 1 ∧ q.next_review = 100 + 1440) :=
  c2_correct_answer_schedules [(0, defaultProgress 0)] 0 (defaultProgress 0)
    100 0 rfl

/-- C3: for every pair id and every prior state, an incorrect answer resets
`correct_streak` to 0 and `interval_days` to 0 and makes the item
immediately due (`next_review` no later than the recording time). -/
theorem c3_incorrect_answer_resets (m : List (ℕ × ItemProgress)) (pid : ℕ)
    (now tI : ℤ) :
    ∃ q, dictGet (update_progress m pid false now tI) pid = some q ∧
      q.correct_streak = 0 ∧ q.interval_days = 0 ∧ q.next_review ≤ now := by
  have hq := update_progress_lookup m pid false now tI
  rw [updateEntry_false] at hq
  exact ⟨_, hq, rfl, rfl, le_refl now⟩

/-- C10: after any `update_progress` call the updated entry's
`interval_days` is an integer that is 0 or at least 1 (never strictly
between 0 and 1); on the correct-answer path the interval is at least 1, so
`next_review` always comes from the whole-days branch (`now + 1440 * n`)
and the sub-day minutes branch is unreachable. -/
theorem c10_interval_integral_minutes_branch_dead
    (m : List (ℕ × ItemProgress)) (pid : ℕ) (c : Bool) (now tI : ℤ) :
    ∃ (q : ItemProgress) (n : ℤ), dictGet (update_progress m pid c now tI) pid = some q ∧
      q.interval_days = (n : ℚ) ∧ 0 ≤ n ∧ (n = 0 ∨ 1 ≤ n) ∧
      (c = true → 1 ≤ n ∧ q.next_review = now + 1440 * n) := by
  cases c with
  | false =>
    have hq := update_progress_lookup m pid false now tI
    rw [updateEntry_false] at hq
    exact ⟨_, 0, hq, by norm_num, le_refl 0, Or.inl rfl, by simp⟩
  | true =>
    have hq := update_progress_lookup m pid true now tI
    rw [updateEntry_true] at hq
    have h1 := one_le_correctInterval ((dictGet m pid).getD (defaultProgress tI))
    exact ⟨_, _, hq, rfl, by omega, Or.inr h1, fun _ => ⟨h1, rfl⟩⟩

/-- C10 witness: a concrete instance of the update on a fresh entry. -/
theorem c10_interval_integral_minutes_branch_dead_witness :
    ∃ (q : ItemProgress) (n : ℤ), dictGet (update_progress [] 0 true 7 0) 0 = some q ∧
      q.interval_days = (n : ℚ) ∧ 0 ≤ n ∧ (n = 0 ∨ 1 ≤ n) ∧
      (true = true → 1 ≤ n ∧ q.next_review = 7 + 1440 * n) :=
  c10_interval_integral_minutes_branch_dead [] 0 true 7 0

/-- A sequence of `update_progress` calls: each element is
`(pair_id, is_correct, now, tInit)`, applied in order. -/
def applyCalls : List (ℕ × ItemProgress) → List (ℕ × Bool × ℤ × ℤ) →
    List (ℕ × ItemProgress)
  | m, [] => m
  | m, c :: rest => applyCalls (update_progress m c.1 c.2.1 c.2.2.1 c.2.2.2) rest

lemma updateEntry_ever_correct (p : ItemProgress) (c : Bool) (now : ℤ)
    (h : p.ever_correct = true) : (updateEntry p c now).ever_correct = true := by
  cases c with
  | false => rw [updateEntry_false]; exact h
  | true => rw [updateEntry_true]

/-- C9: `ever_correct` is monotonic — once a pair's entry has
`ever_correct = true`, it stays true after any further sequence of
`update_progress` calls (any pair ids, answers and times, in particular any
number of incorrect answers on this pair). -/
theorem c9_ever_correct_monotonic (calls : List (ℕ × Bool × ℤ × ℤ))
    (m : List (ℕ × ItemProgress)) (pid : ℕ) (p : ItemProgress)
    (hp : dictGet m pid = some p) (hev : p.ever_correct = true) :
    ∃ q, dictGet (applyCalls m calls) pid = some q ∧ q.ever_correct = true := by
  induction calls generalizing m p with
  | nil => exact ⟨p, hp, hev⟩
  | cons c rest ih =>
    show ∃ q, dictGet
      (applyCalls (update_progress m c.1 c.2.1 c.2.2.1 c.2.2.2) rest) pid =
        some q ∧ q.ever_correct = true
    by_cases hc : c.1 = pid
    · subst hc
      have hl := update_progress_lookup m c.1 c.2.1 c.2.2.1 c.2.2.2
      rw [hp, Option.getD_some] at hl
      exact ih _ _ hl (updateEntry_ever_correct p c.2.1 c.2.2.1 hev)
    · have hl := update_progress_lookup_ne m c.2.1 c.2.2.1 c.2.2.2
        (fun hh : pid = c.1 => hc hh.symm)
      rw [hp] at hl
      exact ih _ _ hl hev

/-- C9 witness: after two incorrect answers the flag set by an earlier
correct answer is still true. -/
theorem c9_ever_correct_monotonic_witness :
    ∃ q, dictGet
        (applyCalls [(0, updateEntry (defaultProgress 0) true 1)]
          [(0, false, 2, 2), (0, false, 3, 3)]) 0 = some q ∧
      q.ever_correct = true :=
  c9_ever_correct_monotonic [(0, false, 2, 2), (0, false, 3, 3)]
    [(0, updateEntry (defaultProgress 0) true 1)] 0
    (updateEntry (defaultProgress 0) true 1) rfl rfl

/-- The state set up by `init_session_state` in a fresh process with no
saved snapshot: empty progress and daily stats, zeroed counters, and no
`last_shown_type` attribute. -/
def initialState : AppState :=
  { progress := [], session_correct := 0, session_total := 0,
    current_streak := 0, daily_stats := [], extra_questions_added := 0,
    last_shown_type := none }

/-- C1 counterexample: on the all-zero initial state with catalog size 1,
when the clock advances between capturing `now` (reading 0) and lazily
initializing pair 0 (reading 1), the freshly created entry has
`next_review > now`, no pair is due, and `select_next_pair` returns `None`
— refuting the claim that it never does. -/
theorem c1_fresh_state_counterexample :
    (select_next_pair 1 initialState 0 (fun _ => 1) (fun _ => "") 0).1 =
      none := by
  decide

lemma scanDue_head_due (now : ℤ) (tInit : ℕ → ℤ) (types : ℕ → String)
    (i fuel : ℕ) (m : List (ℕ × ItemProgress))
    (hm : dictGet m i = none) (hc : tInit i ≤ now) :
    (scanDue now tInit types i (fuel + 1) m).2 ≠ [] := by
  have hinit := dictGet_init_self m i (tInit i)
  rw [hm] at hinit
  simp only [scanDue, hinit, Option.getD_some, Option.getD_none]
  rw [if_pos (show (defaultProgress (tInit i)).next_review ≤ now from hc)]
  simp

/-- C1, amended: on the all-zero initial state with catalog size at least 1,
`select_next_pair` selects a pair provided every clock reading taken while
lazily initializing a pair is at most the scan timestamp `now` — e.g. when
the clock does not advance during the call.  (With an advancing clock the
fresh entries are initialized after `now` and are not due, see the
counterexample.) -/
theorem c1_fresh_state_selects_pair (N : ℕ) (s : AppState) (now : ℤ)
    (tInit : ℕ → ℤ) (types : ℕ → String) (rand : ℕ)
    (hN : 1 ≤ N) (hprog : s.progress = [])
    (hclock : ∀ i, i < N → tInit i ≤ now) :
    ∃ pid, (select_next_pair N s now tInit types rand).1 = some pid := by
  obtain ⟨fuel, rfl⟩ : ∃ fuel, N = fuel + 1 := ⟨N - 1, by omega⟩
  have hne := scanDue_head_due now tInit types 0 fuel s.progress
    (by rw [hprog]; rfl) (hclock 0 (by omega))
  unfold select_next_pair
  cases hd : (scanDue now tInit types 0 (fuel + 1) s.progress).2 with
  | nil => exact absurd hd hne
  | cons d ds =>
    rw [Option.ne_none_iff_exists'.symm]
    show (afterScan s (scanDue now tInit types 0 (fuel + 1) s.progress).1 rand
      (scanDue now tInit types 0 (fuel + 1) s.progress).2).1 ≠ none
    rw [hd]
    simp [afterScan]

/-- C1 witness: with a frozen clock (every reading 0), the amended statement
applies to a catalog of size 1 and the all-zero state. -/
theorem c1_fresh_state_selects_pair_witness :
    (1 ≤ 1 ∧ initialState.progress = [] ∧
      (∀ i, i < 1 → (fun _ => (0 : ℤ)) i ≤ 0)) ∧
    ∃ pid, (select_next_pair 1 initialState 0 (fun _ => 0) (fun _ => "") 0).1 =
      some pid :=
  ⟨⟨le_refl 1, rfl, by decide⟩,
   c1_fresh_state_selects_pair 1 initialState 0 (fun _ => 0) (fun _ => "") 0
     (le_refl 1) rfl (by decide)⟩

lemma scLoop_true_iff (now : ℤ) (tInit : ℕ → ℤ) (fuel : ℕ) :
    ∀ (i : ℕ) (m : List (ℕ × ItemProgress)),
      ((scLoop now tInit i fuel m).1 = true ↔
        ∀ j, i ≤ j → j < i + fuel →
          ∃ p, dictGet m j = some p ∧ p.ever_correct = true ∧
            now < p.next_review) := by
  induction fuel with
  | zero =>
    intro i m
    simp only [scLoop]
    constructor
    · intro _ j h1 h2
      omega
    · intro _
      trivial
  | succ fuel ih =>
    intro i m
    have hinit := dictGet_init_self m i (tInit i)
    cases hm : dictGet m i with
    | none =>
      rw [hm] at hinit
      simp only [scLoop, hinit, Option.getD_some, Option.getD_none]
      rw [if_pos (Or.inl (by simp [defaultProgress]))]
      apply iff_of_false (by simp)
      intro hR
      obtain ⟨p', hp', _, _⟩ := hR i (le_refl i) (by omega)
      rw [hm] at hp'
      exact absurd hp' (by simp)
    | some p0 =>
      rw [hm] at hinit
      simp only [scLoop, hinit, Option.getD_some]
      by_cases hP : ¬ p0.ever_correct ∨ p0.next_review ≤ now
      · rw [if_pos hP]
        apply iff_of_false (by simp)
        intro hR
        obtain ⟨p', hp', hev, hlt⟩ := hR i (le_refl i) (by omega)
        rw [hm] at hp'
        have hpp : p' = p0 := by
          injection hp' with h
          exact h.symm
        subst hpp
        rcases hP with h | h
        · exact h hev
        · omega
      · rw [if_neg hP]
        push_neg at hP
        rw [ih (i + 1) (init_pair_progress m i (tInit i))]
        constructor
        · intro h j h1 h2
          by_cases hj : j = i
          · subst hj
            exact ⟨p0, hm, hP.1, hP.2⟩
          · obtain ⟨p', hp', hev, hlt⟩ := h j (by omega) (by omega)
            rw [dictGet_init_ne m (tInit i) hj] at hp'
            exact ⟨p', hp', hev, hlt⟩
        · intro h j h1 h2
          obtain ⟨p', hp', hev, hlt⟩ := h j (by omega) (by omega)
          refine ⟨p', ?_, hev, hlt⟩
          rw [dictGet_init_ne m (tInit i) (by omega)]
          exact hp'

/-- C5: `session_complete` returns true whenever the daily target (20 plus
`extra_questions_added` questions answered today) is reached, regardless of
per-item state; otherwise it returns true iff every pair id below the
catalog size has an entry that is ever-correct with `next_review` strictly
in the future; and on a catalog with zero history (empty progress and daily
stats, at least one pair) it returns false. -/
theorem c5_session_complete_characterization (N : ℕ) (s : AppState)
    (today : String) (now : ℤ) (tInit : ℕ → ℤ) :
    (daily_target_reached s today = true →
      (session_complete N s today now tInit).1 = true) ∧
    (daily_target_reached s today = false →
      ((session_complete N s today now tInit).1 = true ↔
        ∀ i, i < N → ∃ p, dictGet s.progress i = some p ∧
          p.ever_correct = true ∧ now < p.next_review)) ∧
    (s.progress = [] → s.daily_stats = [] → 1 ≤ N →
      (session_complete N s today now tInit).1 = false) := by
  refine ⟨?_, ?_, ?_⟩
  · intro h
    unfold session_complete
    rw [if_pos h]
  · intro h
    unfold session_complete
    rw [if_neg (by simp [h])]
    show (scLoop now tInit 0 N s.progress).1 = true ↔ _
    rw [scLoop_true_iff now tInit N 0 s.progress]
    constructor
    · intro hh j hj
      exact hh j (by omega) (by omega)
    · intro hh j _ hj
      exact hh j (by omega)
  · intro hp hd hN
    have ht : daily_target_reached s today = false := by
      unfold daily_target_reached
      rw [hd]
      apply decide_eq_false
      show ¬ (DAILY_TARGET + s.extra_questions_added ≤ _)
      simp only [dictGet]
      unfold DAILY_TARGET
      omega
    unfold session_complete
    rw [if_neg (by simp [ht])]
    show (scLoop now tInit 0 N s.progress).1 = false
    cases hb : (scLoop now tInit 0 N s.progress).1 with
    | false => rfl
    | true =>
      obtain ⟨p', hp', _, _⟩ :=
        (scLoop_true_iff now tInit N 0 s.progress).mp hb 0 (le_refl 0)
          (by omega)
      rw [hp] at hp'
      exact absurd hp' (by simp [dictGet])

/-- A state whose daily stats already show 20 questions answered today
(under the date key `"d"`), used to witness the daily-target branch. -/
def stateWithTwenty : AppState :=
  { progress := [], session_correct := 0, session_total := 0,
    current_streak := 0,
    daily_stats := [("d", { questions_answered := 20, correct_answers := 10,
                            started_at := 0 })],
    extra_questions_added := 0, last_shown_type := none }

/-- C5 witness: with 20 answers recorded today and no extra questions, the
session is complete regardless of the (empty, unmastered) progress map. -/
theorem c5_session_complete_characterization_witness :
    daily_target_reached stateWithTwenty "d" = true ∧
    (session_complete 1 stateWithTwenty "d" 0 (fun _ => 0)).1 = true :=
  ⟨by decide,
   (c5_session_complete_characterization 1 stateWithTwenty "d" 0
     (fun _ => 0)).1 (by decide)⟩

/-- The three swaps `random.shuffle` performs on a 4-element list, with the
reduced draws `j3, j2, j1`. -/
def shuf3 (l : List Slot) (j3 j2 j1 : ℕ) : List Slot :=
  swapNth (swapNth (swapNth l 3 j3) 2 j2) 1 j1

/-- The shape C4 asserts of a generated sequence: length 4, three majority
labels, one odd label, and the first index of the odd label really holds the
odd label and is in range. -/
def questionShape (L : List Slot) (maj odd : Slot) : Prop :=
  L.length = 4 ∧ L.count maj = 3 ∧ L.count odd = 1 ∧
    L.get? (L.indexOf odd) = some odd ∧ L.indexOf odd < 4

instance (L : List Slot) (maj odd : Slot) :
    Decidable (questionShape L maj odd) := by
  unfold questionShape
  infer_instance

lemma pyShuffle_eq_of_length_four (l : List Slot) (draws : ℕ → ℕ)
    (hl : l.length = 4) :
    pyShuffle l draws = shuf3 l (draws 3 % 4) (draws 2 % 3) (draws 1 % 2) := by
  unfold pyShuffle shuf3
  rw [hl]
  rfl

lemma shuffle_cases :
    ∀ j3, j3 < 4 → ∀ j2, j2 < 3 → ∀ j1, j1 < 2 →
      questionShape (shuf3 [Slot.A, Slot.A, Slot.A, Slot.B] j3 j2 j1)
        Slot.A Slot.B ∧
      questionShape (shuf3 [Slot.B, Slot.B, Slot.B, Slot.A] j3 j2 j1)
        Slot.B Slot.A := by
  decide

/-- C4: every question built by `create_question` has a 4-slot sequence with
exactly 3 occurrences of the majority label and exactly 1 occurrence of the
odd label, and `correct_position` (1-indexed) points at the odd label in the
post-shuffle sequence. -/
theorem c4_question_shape (pair_id : ℕ) (row : CatalogRow) (coin : Bool)
    (draws : ℕ → ℕ) :
    (create_question pair_id row coin draws).sequence.length = 4 ∧
    (create_question pair_id row coin draws).sequence.count
      (create_question pair_id row coin draws).majority = 3 ∧
    (create_question pair_id row coin draws).sequence.count
      (create_question pair_id row coin draws).odd = 1 ∧
    1 ≤ (create_question pair_id row coin draws).correct_position ∧
    (create_question pair_id row coin draws).correct_position ≤ 4 ∧
    (create_question pair_id row coin draws).sequence.get?
      ((create_question pair_id row coin draws).correct_position - 1) =
      some (create_question pair_id row coin draws).odd := by
  have key := shuffle_cases (draws 3 % 4) (Nat.mod_lt _ (by omega))
    (draws 2 % 3) (Nat.mod_lt _ (by omega)) (draws 1 % 2)
    (Nat.mod_lt _ (by omega))
  cases coin with
  | true =>
    obtain ⟨⟨hlen, hcnt3, hcnt1, hget, hlt⟩, _⟩ := key
    have hs : (create_question pair_id row true draws).sequence =
        shuf3 [Slot.A, Slot.A, Slot.A, Slot.B] (draws 3 % 4) (draws 2 % 3)
          (draws 1 % 2) := by
      show pyShuffle [Slot.A, Slot.A, Slot.A, Slot.B] draws = _
      exact pyShuffle_eq_of_length_four _ draws rfl
    have hm : (create_question pair_id row true draws).majority = Slot.A := rfl
    have ho : (create_question pair_id row true draws).odd = Slot.B := rfl
    have hcp : (create_question pair_id row true draws).correct_position =
        (create_question pair_id row true draws).sequence.indexOf Slot.B + 1 :=
      rfl
    refine ⟨?_, ?_, ?_, ?_, ?_, ?_⟩
    · rw [hs]
      exact hlen
    · rw [hm, hs]
      exact hcnt3
    · rw [ho, hs]
      exact hcnt1
    · rw [hcp]
      omega
    · rw [hcp, hs]
      omega
    · rw [hcp, hs, ho, Nat.add_sub_cancel]
      exact hget
  | false =>
    obtain ⟨_, ⟨hlen, hcnt3, hcnt1, hget, hlt⟩⟩ := key
    have hs : (create_question pair_id row false draws).sequence =
        shuf3 [Slot.B, Slot.B, Slot.B, Slot.A] (draws 3 % 4) (draws 2 % 3)
          (draws 1 % 2) := by
      show pyShuffle [Slot.B, Slot.B, Slot.B, Slot.A] draws = _
      exact pyShuffle_eq_of_length_four _ draws rfl
    have hm : (create_question pair_id row false draws).majority = Slot.B := rfl
    have ho : (create_question pair_id row false draws).odd = Slot.A := rfl
    have hcp : (create_question pair_id row false draws).correct_position =
        (create_question pair_id row false draws).sequence.indexOf Slot.A + 1 :=
      rfl
    refine ⟨?_, ?_, ?_, ?_, ?_, ?_⟩
    · rw [hs]
      exact hlen
    · rw [hm, hs]
      exact hcnt3
    · rw [ho, hs]
      exact hcnt1
    · rw [hcp]
      omega
    · rw [hcp, hs]
      omega
    · rw [hcp, hs, ho, Nat.add_sub_cancel]
      exact hget

lemma mem_missingAux (fs : AudioFS) :
    ∀ (fuel start : ℕ) (j : ℕ) (sl : Slot),
      ((j, sl) ∈ missingAux fs start fuel ↔
        start ≤ j ∧ j < start + fuel ∧ fs (j, sl) = none) := by
  intro fuel
  induction fuel with
  | zero =>
    intro start j sl
    constructor
    · intro h
      simp [missingAux] at h
    · rintro ⟨h1, h2, h3⟩
      omega
  | succ fuel ih =>
    intro start j sl
    simp only [missingAux, List.append_assoc, List.mem_append]
    constructor
    · intro h
      rcases h with h | h | h
      · split at h
        · simp only [List.mem_singleton, Prod.mk.injEq] at h
          obtain ⟨hj, hsl⟩ := h
          subst hj
          subst hsl
          refine ⟨le_refl _, by omega, by assumption⟩
        · simp at h
      · split at h
        · simp only [List.mem_singleton, Prod.mk.injEq] at h
          obtain ⟨hj, hsl⟩ := h
          subst hj
          subst hsl
          refine ⟨le_refl _, by omega, by assumption⟩
        · simp at h
      · obtain ⟨h1, h2, h3⟩ := (ih (start + 1) j sl).mp h
        exact ⟨by omega, by omega, h3⟩
    · rintro ⟨h1, h2, h3⟩
      by_cases hj : j = start
      · subst hj
        cases sl with
        | A =>
          left
          rw [if_pos h3]
          simp
        | B =>
          right
          left
          rw [if_pos h3]
          simp
      · right
        right
        exact (ih (start + 1) j sl).mpr ⟨by omega, by omega, h3⟩

lemma runTasks_fs_frame (ok : ℕ × Slot → Bool) (bytes : ℕ × Slot → ℕ) :
    ∀ (ts : List AssetTask) (fs : AudioFS) (k : ℕ × Slot),
      (∀ t ∈ ts, (t.pair_id, t.slot) ≠ k) →
      (runTasks ok bytes ts fs).1 k = fs k := by
  intro ts
  induction ts with
  | nil => intro fs k _; rfl
  | cons t rest ih =>
    intro fs k h
    have hk := h t (List.mem_cons_self _ _)
    simp only [runTasks]
    rw [ih _ _ (fun t' ht' => h t' (List.mem_cons_of_mem _ ht'))]
    split
    · show (if k = (t.pair_id, t.slot) then some (bytes (t.pair_id, t.slot))
        else fs k) = fs k
      rw [if_neg (fun hh => hk hh.symm)]
    · rfl

lemma runTasks_failed (ok : ℕ × Slot → Bool) (bytes : ℕ × Slot → ℕ) :
    ∀ (ts : List AssetTask) (fs : AudioFS),
      (runTasks ok bytes ts fs).2 =
        (ts.map (fun t => (t.pair_id, t.slot))).filter (fun k => ! ok k) := by
  intro ts
  induction ts with
  | nil => intro fs; rfl
  | cons t rest ih =>
    intro fs
    simp only [runTasks, List.map_cons, List.filter_cons]
    rw [ih]
    cases hok : ok (t.pair_id, t.slot) with
    | false => simp [hok]
    | true => simp [hok]

/-- C8: `generate_all_audio` builds a task exactly for every `(pairId, slot)`
key with `pairId < N` whose destination file is absent at scan time; it never
overwrites a destination that existed at scan time (existing artifacts keep
their contents); the `failed` list is, up to the arbitrary completion order,
exactly the missing keys whose synthesis failed; and over a catalog of size 3
with no existing artifacts exactly 6 tasks are dispatched. -/
theorem c8_pipeline_reconcile (N : ℕ) (rows : ℕ → CatalogRow) (fs : AudioFS)
    (ok : ℕ × Slot → Bool) (bytes : ℕ × Slot → ℕ) (order : List (ℕ × Slot))
    (hperm : order.Perm (missing_files N fs)) :
    (∀ k : ℕ × Slot, k ∈ missing_files N fs ↔ k.1 < N ∧ fs k = none) ∧
    (∀ (k : ℕ × Slot) (v : ℕ), fs k = some v →
      (generate_all_audio N rows fs ok bytes order).2.1 k = some v) ∧
    (generate_all_audio N rows fs ok bytes order).2.2.Perm
      ((missing_files N fs).filter (fun k => ! ok k)) ∧
    (missing_files 3 (fun _ => none)).length = 6 := by
  have hmem : ∀ k : ℕ × Slot, k ∈ missing_files N fs ↔ k.1 < N ∧ fs k = none := by
    rintro ⟨j, sl⟩
    rw [missing_files, mem_missingAux]
    constructor
    · rintro ⟨h1, h2, h3⟩
      exact ⟨by omega, h3⟩
    · rintro ⟨h1, h2⟩
      exact ⟨by omega, by omega, h2⟩
  refine ⟨hmem, ?_, ?_, ?_⟩
  · intro k v hv
    unfold generate_all_audio
    by_cases hmiss : (missing_files N fs).isEmpty
    · rw [if_pos hmiss]
      exact hv
    · rw [if_neg hmiss]
      show (runTasks ok bytes (order.map (mkTask rows)) fs).1 k = some v
      rw [runTasks_fs_frame ok bytes _ fs k ?_]
      · exact hv
      · intro t ht
        obtain ⟨k', hk', hteq⟩ := List.mem_map.mp ht
        have hkey : (t.pair_id, t.slot) = k' := by
          rw [← hteq]
          rfl
        rw [hkey]
        have hmiss' := (hmem k').mp (hperm.mem_iff.mp hk')
        intro hcontra
        rw [hcontra, hv] at hmiss'
        exact absurd hmiss'.2 (by simp)
  · unfold generate_all_audio
    by_cases hmiss : (missing_files N fs).isEmpty
    · rw [if_pos hmiss]
      rw [List.isEmpty_iff] at hmiss
      rw [hmiss]
      show List.Perm [] _
      simp
    · rw [if_neg hmiss]
      show (runTasks ok bytes (order.map (mkTask rows)) fs).2.Perm _
      rw [runTasks_failed, List.map_map]
      have hcomp : ((fun t : AssetTask => (t.pair_id, t.slot)) ∘ mkTask rows) =
          id := by
        funext _k
        rfl
      rw [hcomp, List.map_id]
      exact hperm.filter _
  · decide

/-- C8 witness: over a catalog of size 3 with no existing artifacts and all
synthesis calls succeeding, the completion order is the dispatch order
itself (a permutation), the failed list is empty, and 6 tasks exist. -/
theorem c8_pipeline_reconcile_witness :
    (missing_files 3 (fun _ => none)).Perm (missing_files 3 (fun _ => none)) ∧
    (generate_all_audio 3 (fun _ => ⟨"", "", "", "", ""⟩) (fun _ => none)
        (fun _ => true) (fun _ => 0)
        (missing_files 3 (fun _ => none))).2.2.Perm
      ((missing_files 3 (fun _ => none)).filter (fun _k => ! (true : Bool))) ∧
    (missing_files 3 (fun _ => none)).length = 6 :=
  ⟨List.Perm.refl _,
   (c8_pipeline_reconcile 3 (fun _ => ⟨"", "", "", "", ""⟩) (fun _ => none)
      (fun _ => true) (fun _ => 0) (missing_files 3 (fun _ => none))
      (List.Perm.refl _)).2.2.1,
   (c8_pipeline_reconcile 3 (fun _ => ⟨"", "", "", "", ""⟩) (fun _ => none)
      (fun _ => true) (fun _ => 0) (missing_files 3 (fun _ => none))
      (List.Perm.refl _)).2.2.2⟩

lemma digitOfChar_digitChar : ∀ d, d < 10 → digitOfChar (digitChar d) = some d := by
  decide

lemma digitChar_ne_dash : ∀ d, d < 10 → digitChar d ≠ '-' := by
  decide

lemma strToNatAux_digits :
    ∀ (ds : List ℕ), (∀ d ∈ ds, d < 10) → ∀ acc,
      strToNatAux (ds.map digitChar) acc =
        some (ds.foldl (fun a d => 10 * a + d) acc) := by
  intro ds
  induction ds with
  | nil => intro _ acc; rfl
  | cons d ds ih =>
    intro h acc
    have hd := digitOfChar_digitChar d (h d (List.mem_cons_self _ _))
    simp only [List.map_cons, strToNatAux, hd, List.foldl_cons]
    exact ih (fun x hx => h x (List.mem_cons_of_mem _ hx)) _

lemma foldr_ofDigits (L : List ℕ) :
    L.foldr (fun d a => 10 * a + d) 0 = Nat.ofDigits 10 L := by
  induction L with
  | nil => rfl
  | cons d L ih =>
    rw [List.foldr_cons, Nat.ofDigits_cons, ih]
    omega

lemma foldl_reverse_digits (n : ℕ) :
    ((Nat.digits 10 n).reverse).foldl (fun a d => 10 * a + d) 0 = n := by
  rw [List.foldl_reverse]
  exact (foldr_ofDigits _).trans (Nat.ofDigits_digits 10 n)

lemma natToStr_data (n : ℕ) (hn : n ≠ 0) :
    (natToStr n).data = ((Nat.digits 10 n).reverse).map digitChar := by
  unfold natToStr
  rw [if_neg hn]
  show ((Nat.digits 10 n).map digitChar).reverse = _
  rw [List.map_reverse]

lemma natToStr_data_ne_nil (n : ℕ) : (natToStr n).data ≠ [] := by
  by_cases hn : n = 0
  · subst hn
    decide
  · rw [natToStr_data n hn]
    simp [Nat.digits_ne_nil_iff_ne_zero, hn]

lemma strToNat_natToStr (n : ℕ) : strToNat (natToStr n) = some n := by
  by_cases hn : n = 0
  · subst hn
    decide
  · unfold strToNat
    rw [natToStr_data n hn]
    rw [if_neg (by simp [Nat.digits_ne_nil_iff_ne_zero, hn])]
    rw [strToNatAux_digits _
      (fun d hd => Nat.digits_lt_base (by norm_num)
        (List.mem_reverse.mp hd))]
    rw [foldl_reverse_digits]

lemma strToNatAux_natToStr (n : ℕ) : strToNatAux (natToStr n).data 0 = some n := by
  have h := strToNat_natToStr n
  unfold strToNat at h
  rwa [if_neg (by simp [List.isEmpty_iff, natToStr_data_ne_nil])] at h

lemma natToStr_head_ne_dash (n : ℕ) (c : Char) (cs : List Char)
    (h : (natToStr n).data = c :: cs) : c ≠ '-' := by
  by_cases hn : n = 0
  · subst hn
    have : c = '0' := by
      have h0 : (natToStr 0).data = ['0'] := rfl
      rw [h0] at h
      injection h with h1 _
      exact h1.symm
    rw [this]
    decide
  · rw [natToStr_data n hn] at h
    have hc : c ∈ ((Nat.digits 10 n).reverse).map digitChar := by
      rw [h]
      exact List.mem_cons_self _ _
    obtain ⟨d, hd, rfl⟩ := List.mem_map.mp hc
    exact digitChar_ne_dash d
      (Nat.digits_lt_base (by norm_num) (List.mem_reverse.mp hd))

lemma isoParse_isoFormat (t : ℤ) : isoParse (isoFormat t) = some t := by
  by_cases ht : t < 0
  · have hdata : (isoFormat t).data = '-' :: (natToStr t.natAbs).data := by
      unfold isoFormat
      rw [if_pos ht]
      rw [String.data_append]
      rfl
    unfold isoParse
    rw [hdata]
    simp only [isoParseChars]
    rw [if_pos trivial]
    rw [if_neg (by simp [List.isEmpty_iff, natToStr_data_ne_nil])]
    rw [strToNatAux_natToStr]
    have : ((t.natAbs : ℕ) : ℤ) = -t := by omega
    simp [this]
  · have hdata : (isoFormat t).data = (natToStr t.natAbs).data := by
      unfold isoFormat
      rw [if_neg ht]
    unfold isoParse
    rw [hdata]
    cases hd : (natToStr t.natAbs).data with
    | nil => exact absurd hd (natToStr_data_ne_nil _)
    | cons c cs =>
      simp only [isoParseChars]
      rw [if_neg (natToStr_head_ne_dash _ c cs hd)]
      rw [← hd, strToNatAux_natToStr]
      have : ((t.natAbs : ℕ) : ℤ) = t := by omega
      simp [this]

lemma parseProgress_save (pl : List (ℕ × ItemProgress)) :
    parseProgress (pl.map (fun kv =>
      (natToStr kv.1,
       { correct_streak := kv.2.correct_streak
         ease_factor := kv.2.ease_factor
         interval_days := kv.2.interval_days
         next_review := isoFormat kv.2.next_review
         ever_correct := kv.2.ever_correct }))) = some pl := by
  induction pl with
  | nil => rfl
  | cons kv rest ih =>
    obtain ⟨k, p⟩ := kv
    simp only [List.map_cons, parseProgress, strToNat_natToStr,
      isoParse_isoFormat, ih]

/-- C6, amended: saving a snapshot and loading it back into any running
state reproduces the `ItemProgress` map, `session_correct`, `session_total`,
`current_streak` and the `DailyStat` map field-for-field (timestamps
exactly), and reports success — but `extra_questions_added` is NOT part of
the snapshot: the loading process keeps its own value (0 after a restart),
so that counter does not survive restarts. -/
theorem c6_save_load_roundtrip (s : AppState) (now : ℤ) (t : AppState) :
    load_progress (LoadInput.valid (save_progress s now)) t =
      (true,
       { t with
         progress := s.progress
         session_correct := s.session_correct
         session_total := s.session_total
         current_streak := s.current_streak
         daily_stats := s.daily_stats },
       false) := by
  unfold load_progress save_progress
  simp only [parseProgress_save]

/-- C6 counterexample: a state with `extra_questions_added = 5` is saved;
loading the snapshot in a fresh process (whose state starts with the
counter at 0, as `init_session_state` creates it) does not reproduce the
counter — refuting the claim that the round trip restores
`extraQuestionsAdded`. -/
theorem c6_extra_questions_not_persisted :
    ((load_progress (LoadInput.valid (save_progress
        { initialState with extra_questions_added := 5 } 0))
      initialState).2.1).extra_questions_added ≠
      ({ initialState with
          extra_questions_added := 5 } : AppState).extra_questions_added := by
  decide

/-- C7, amended: `load_progress` returns `False` with the state unchanged
both when no snapshot file exists and when the snapshot is corrupt; the
caller cannot tell the two apart from the returned value — the only
difference is the `st.error` message displayed in the UI on the corrupt
path (the third component).  No exception propagates to the caller. -/
theorem c7_load_missing_and_corrupt_outcomes (s : AppState) :
    load_progress LoadInput.missingFile s = (false, s, false) ∧
    load_progress LoadInput.corrupt s = (false, s, true) :=
  ⟨rfl, rfl⟩

/-- C7 counterexample: on the initial state the caller-visible outcome
(returned value and resulting state) of a corrupt snapshot is identical to
that of a missing snapshot — refuting the claim that corruption is
surfaced to the caller distinctly from not-found. -/
theorem c7_corrupt_same_as_missing :
    ((load_progress LoadInput.corrupt initialState).1,
     (load_progress LoadInput.corrupt initialState).2.1) =
    ((load_progress LoadInput.missingFile initialState).1,
     (load_progress LoadInput.missingFile initialState).2.1) := rfl
